import Mathlib

/-!
Verification of the lazy document-loading pipeline demonstrated in the
repository's custom-document-loader notebook.  The pipeline consists of
`Blob`s (raw content plus optional origin), `Document`s (records of text plus
metadata), the line-splitting parser `MyParser.lazy_parse`, the standalone
loader `CustomDocumentLoader.lazy_load` / `alazy_load`, and the
Source x Parser composition of `GenericLoader`.

Byte payloads are modelled as `String`s: the only byte-level operation the
code performs is splitting on the newline byte, which coincides with
splitting the decoded string on the newline character (a multi-byte UTF-8
character never contains the byte 0x0A).  Python generators are modelled as
lists of the values they yield, and additionally - where a claim is about
the suspension behaviour itself - as explicit step machines over a
suspended-state type.  Metadata dictionaries are association lists, so that
the presence of a key with value `None` is distinguishable from the absence
of the key.
-/

set_option autoImplicit false
set_option maxHeartbeats 1000000

namespace LangchainDocLoader

/-- A metadata value: a string, a number, or Python's `None`. -/
inductive MetaVal where
  | str (s : String)
  | num (n : Nat)
  | none
deriving DecidableEq, Repr

/-- Embed an optional string the way Python passes `blob.source` (which may
be `None`) into a metadata dictionary value. -/
def MetaVal.ofOpt : Option String → MetaVal
  | Option.none => MetaVal.none
  | Option.some s => MetaVal.str s

/-- A langchain `Document`: extracted text plus a metadata dictionary,
modelled as an association list so the presence of a key is observable. -/
structure Document where
  page_content : String
  metadata : List (String × MetaVal)
deriving DecidableEq, Repr

/-- A langchain `Blob`: raw content plus optional path.  `data` is the byte
payload the blob resolves to (for a path-backed blob, the content of the
file at `path`); `path` is `none` for a purely in-memory blob. -/
structure Blob where
  data : String
  path : Option String
deriving DecidableEq, Repr

/-- `Blob.source`: the origin identifier, `None` for an in-memory blob
constructed as `Blob(data=...)`. -/
def Blob.source (b : Blob) : Option String :=
  b.path

/-- `Blob.from_path`: a blob backed by the file at `p` whose content is `c`. -/
def Blob.from_path (p : String) (c : String) : Blob :=
  ⟨c, some p⟩

/-- Split a character buffer the way Python's file/BytesIO line iteration
does: each yielded chunk ends with the newline that terminated it, and a
final chunk without a newline is yielded only when nonempty.  `acc` holds
the (reversed) characters of the line being accumulated. -/
def splitLinesAux : List Char → List Char → List (List Char)
  | [], acc => if acc = [] then [] else [acc.reverse]
  | c :: cs, acc =>
      if c = '\n' then (acc.reverse ++ ['\n']) :: splitLinesAux cs []
      else splitLinesAux cs (c :: acc)

/-- The sequence of lines Python's `for line in f` iteration yields on `s`. -/
def pyLines (s : String) : List String :=
  (splitLinesAux s.data []).map fun l => ⟨l⟩

/-- Read off the `line_number` metadata entry of a document (0 if absent or
not a number). -/
def lineNumNat (d : Document) : Nat :=
  match d.metadata.lookup "line_number" with
  | some (MetaVal.num n) => n
  | _ => 0

/-- The loop body of `MyParser.lazy_parse`: `line_number` is incremented
before each yield, so records are numbered from `n + 1` onwards. -/
def MyParser.lazyParseAux (src : Option String) : Nat → List String → List Document
  | _, [] => []
  | n, line :: rest =>
      ⟨line, [("line_number", MetaVal.num (n + 1)), ("source", MetaVal.ofOpt src)]⟩ ::
        MyParser.lazyParseAux src (n + 1) rest

/-- `MyParser.lazy_parse`: parse a blob into one document per line, with
1-based `line_number` and the blob's `source` in every document's metadata. -/
def MyParser.lazy_parse (blob : Blob) : List Document :=
  MyParser.lazyParseAux blob.source 0 (pyLines blob.data)

/-- `CustomDocumentLoader`: configured with a file path at construction. -/
structure CustomDocumentLoader where
  file_path : String
deriving DecidableEq, Repr

/-- Python text mode's universal-newline translation, applied by
`open(..., encoding="utf-8")` (and by aiofiles) before line iteration:
"\r\n" becomes "\n", and a lone "\r" (also one at end of input) becomes
"\n". -/
def univNewlines : List Char → List Char
  | [] => []
  | [c] => if c = '\r' then ['\n'] else [c]
  | c :: c2 :: cs =>
      if c = '\r' then
        if c2 = '\n' then '\n' :: univNewlines cs
        else '\n' :: univNewlines (c2 :: cs)
      else c :: univNewlines (c2 :: cs)

/-- The text a Python text-mode file handle presents for raw content `s`:
the content with universal-newline translation applied. -/
def textRead (s : String) : String :=
  ⟨univNewlines s.data⟩

/-- The loop body of `CustomDocumentLoader.lazy_load`: `line_number` starts
at 0 and is incremented after each yield, so records are numbered from `n`. -/
def CustomDocumentLoader.lazyLoadAux (fp : String) : Nat → List String → List Document
  | _, [] => []
  | n, line :: rest =>
      ⟨line, [("line_number", MetaVal.num n), ("source", MetaVal.str fp)]⟩ ::
        CustomDocumentLoader.lazyLoadAux fp (n + 1) rest

/-- `CustomDocumentLoader.lazy_load`: open the configured file in text mode
(universal-newline translation applied) and yield one document per line with
0-based `line_number`.  The filesystem is passed as a map from paths to raw
contents; a missing file makes the call fail (`none`), modelling the
exception `open` raises. -/
def CustomDocumentLoader.lazy_load (l : CustomDocumentLoader)
    (fs : String → Option String) : Option (List Document) :=
  (fs l.file_path).map fun content =>
    CustomDocumentLoader.lazyLoadAux l.file_path 0 (pyLines (textRead content))

/-- The loop body of `CustomDocumentLoader.alazy_load`, which re-implements
the same line loop over the asynchronous file handle. -/
def CustomDocumentLoader.alazyLoadAux (fp : String) : Nat → List String → List Document
  | _, [] => []
  | n, line :: rest =>
      ⟨line, [("line_number", MetaVal.num n), ("source", MetaVal.str fp)]⟩ ::
        CustomDocumentLoader.alazyLoadAux fp (n + 1) rest

/-- `CustomDocumentLoader.alazy_load`: the async variant, reading the same
file line by line via `aiofiles` in text mode (the same universal-newline
translation) with the same metadata; a missing file makes the call fail
exactly as in the synchronous variant. -/
def CustomDocumentLoader.alazy_load (l : CustomDocumentLoader)
    (fs : String → Option String) : Option (List Document) :=
  (fs l.file_path).map fun content =>
    CustomDocumentLoader.alazyLoadAux l.file_path 0 (pyLines (textRead content))

/-- The suspended state of one of the line-yielding Python generators: the
lines not yet yielded and the current value of the `line_number` counter. -/
structure LineGen where
  pending : List String
  count : Nat
deriving DecidableEq, Repr

/-- One resumption of the generator inside `CustomDocumentLoader.lazy_load`:
yield the next line as a document (0-based numbering) or stop. -/
def CustomDocumentLoader.genStep (fp : String) : LineGen → Option (Document × LineGen)
  | ⟨[], _⟩ => none
  | ⟨line :: rest, n⟩ =>
      some (⟨line, [("line_number", MetaVal.num n), ("source", MetaVal.str fp)]⟩, ⟨rest, n + 1⟩)

/-- The fresh generator state a call to `CustomDocumentLoader.lazy_load`
creates for a file with raw content `c` (text-mode translation applied). -/
def CustomDocumentLoader.lazyGen (c : String) : LineGen :=
  ⟨pyLines (textRead c), 0⟩

/-- One resumption of the generator inside `MyParser.lazy_parse`: yield the
next line as a document (1-based numbering, counter incremented first) or
stop. -/
def MyParser.genStep (src : Option String) : LineGen → Option (Document × LineGen)
  | ⟨[], _⟩ => none
  | ⟨line :: rest, n⟩ =>
      some (⟨line, [("line_number", MetaVal.num (n + 1)), ("source", MetaVal.ofOpt src)]⟩,
            ⟨rest, n + 1⟩)

/-- The fresh generator state a call to `MyParser.lazy_parse` creates for a
blob `b`. -/
def MyParser.parseGen (b : Blob) : LineGen :=
  ⟨pyLines b.data, 0⟩

/-- Pull a generator to exhaustion, collecting the yielded documents in
order.  `fuel` bounds the number of pulls; any `fuel` at least the number of
pending lines drains the generator completely. -/
def drainGen (step : LineGen → Option (Document × LineGen)) : Nat → LineGen → List Document
  | 0, _ => []
  | fuel + 1, g =>
      match step g with
      | none => []
      | some (d, g') => d :: drainGen step fuel g'

/-- Modelled from the spec: `BaseLoader.load` (defined in `langchain_core`,
outside this repository's notebook sources) "just invokes
`list(self.lazy_load())`" - it fully drains the lazy generator into a list. -/
def BaseLoader.load (step : LineGen → Option (Document × LineGen)) (g : LineGen) :
    List Document :=
  drainGen step g.pending.length g

/-- Modelled from the spec: `GenericLoader.lazy_load` (defined in
`langchain_community`, outside this repository's notebook sources) iterates
every blob yielded by the held blob loader and re-yields every document the
held parser produces from it, in order. -/
def GenericLoader.lazy_load (parser : Blob → List Document) : List Blob → List Document
  | [] => []
  | b :: rest => parser b ++ GenericLoader.lazy_load parser rest

/-- The error raised while enumerating or parsing a blob. -/
inductive LoadErr where
  | sourceEnumeration (msg : String)
deriving DecidableEq, Repr

/-- Modelled from the spec: the failure semantics of `GenericLoader.lazy_load`
(the implementation lives outside the notebook sources).  The enumeration is
a list of blobs or enumeration errors; the parser may itself fail after
yielding some documents.  Iteration yields documents until the first failure,
which terminates the sequence with that error, with no retry and no skipping. -/
def GenericLoader.lazyLoadE (parserE : Blob → List Document × Option LoadErr) :
    List (Except LoadErr Blob) → List Document × Option LoadErr
  | [] => ([], none)
  | Except.error e :: _ => ([], some e)
  | Except.ok b :: rest =>
      match parserE b with
      | (ds, some e) => (ds, some e)
      | (ds, none) =>
          match GenericLoader.lazyLoadE parserE rest with
          | (ds2, err) => (ds ++ ds2, err)

/-- A discoverable filesystem item: its path and the content stored there. -/
structure FsItem where
  path : String
  content : String
deriving DecidableEq, Repr

/-- Increment the payload-resolution counter of item `i`. -/
def bumpAt (w : List Nat) (i : Nat) : List Nat :=
  w.set i (w.getD i 0 + 1)

/-- Modelled from the spec: `FileSystemBlobLoader.yield_blobs` (defined in
`langchain_community`, outside the notebook sources) enumerates the matching
items and yields one blob reference (index and path) per item; the spec
requires that enumeration "must not read blob payloads eagerly", so the
resolution state `w` is threaded through unchanged. -/
def FileSystemBlobLoader.yield_blobs (items : List FsItem) (w : List Nat) :
    List (Nat × String) × List Nat :=
  ((List.range items.length).zip (items.map (·.path)), w)

/-- Resolve the payload of item `i` (what `Blob.as_bytes_io` does when the
parser first reads a path-backed blob): return the stored content and bump
the item's resolution counter. -/
def resolvePayload (items : List FsItem) (i : Nat) (w : List Nat) : String × List Nat :=
  ((items[i]?.map (·.content)).getD "", bumpAt w i)

/-- Pull the first document out of the composed lazy pipeline
`for blob in yield_blobs(): yield from parser.lazy_parse(blob)`, threading
the payload-resolution state.  Blob references are consumed in order; each
blob's payload is resolved exactly when the parser starts on it; the pull
stops at the first blob that yields a document.  Returns the document
together with the index of the item that produced it. -/
def pullFirst (items : List FsItem) : List (Nat × String) → List Nat →
    Option (Document × Nat) × List Nat
  | [], w => (none, w)
  | (i, p) :: rest, w =>
      match MyParser.lazy_parse ⟨(resolvePayload items i w).1, some p⟩ with
      | [] => pullFirst items rest (resolvePayload items i w).2
      | d :: _ => (some (d, i), (resolvePayload items i w).2)

/-- Consume only the first record of the composed pipeline over `items`,
starting from the all-zero resolution state, and return it together with the
final resolution state. -/
def firstRecordWorld (items : List FsItem) : Option (Document × Nat) × List Nat :=
  pullFirst items
    (FileSystemBlobLoader.yield_blobs items (List.replicate items.length 0)).1
    (FileSystemBlobLoader.yield_blobs items (List.replicate items.length 0)).2

/-! Helper lemmas about the embedded operations. -/

theorem lazyParseAux_map_content (src : Option String) (n : Nat) (ls : List String) :
    (MyParser.lazyParseAux src n ls).map (·.page_content) = ls := by
  induction ls generalizing n with
  | nil => rfl
  | cons l rest ih => simp [MyParser.lazyParseAux, ih]

theorem lazyParseAux_map_lineNum (src : Option String) (n : Nat) (ls : List String) :
    (MyParser.lazyParseAux src n ls).map lineNumNat = List.range' (n + 1) ls.length := by
  induction ls generalizing n with
  | nil => rfl
  | cons l rest ih =>
      simp [MyParser.lazyParseAux, lineNumNat, List.lookup, List.range'_succ, ih]

theorem lazyParseAux_lookup_source (src : Option String) (n : Nat) (ls : List String) :
    ∀ d ∈ MyParser.lazyParseAux src n ls,
      d.metadata.lookup "source" = some (MetaVal.ofOpt src) := by
  induction ls generalizing n with
  | nil => intro d hd; simp [MyParser.lazyParseAux] at hd
  | cons l rest ih =>
      intro d hd
      rcases List.mem_cons.mp hd with hd | hd
      · subst hd; simp [List.lookup]
      · exact ih (n + 1) d hd

theorem lazyLoadAux_map_content (fp : String) (n : Nat) (ls : List String) :
    (CustomDocumentLoader.lazyLoadAux fp n ls).map (·.page_content) = ls := by
  induction ls generalizing n with
  | nil => rfl
  | cons l rest ih => simp [CustomDocumentLoader.lazyLoadAux, ih]

theorem lazyLoadAux_map_lineNum (fp : String) (n : Nat) (ls : List String) :
    (CustomDocumentLoader.lazyLoadAux fp n ls).map lineNumNat = List.range' n ls.length := by
  induction ls generalizing n with
  | nil => rfl
  | cons l rest ih =>
      simp [CustomDocumentLoader.lazyLoadAux, lineNumNat, List.lookup, List.range'_succ, ih]

theorem lazyLoadAux_lookup_source (fp : String) (n : Nat) (ls : List String) :
    ∀ d ∈ CustomDocumentLoader.lazyLoadAux fp n ls,
      d.metadata.lookup "source" = some (MetaVal.str fp) := by
  induction ls generalizing n with
  | nil => intro d hd; simp [CustomDocumentLoader.lazyLoadAux] at hd
  | cons l rest ih =>
      intro d hd
      rcases List.mem_cons.mp hd with hd | hd
      · subst hd; simp [List.lookup]
      · exact ih (n + 1) d hd

theorem alazyLoadAux_eq_lazyLoadAux (fp : String) (n : Nat) (ls : List String) :
    CustomDocumentLoader.alazyLoadAux fp n ls = CustomDocumentLoader.lazyLoadAux fp n ls := by
  induction ls generalizing n with
  | nil => rfl
  | cons l rest ih =>
      simp [CustomDocumentLoader.alazyLoadAux, CustomDocumentLoader.lazyLoadAux, ih]

theorem splitLinesAux_flatten (cs : List Char) (acc : List Char) :
    (splitLinesAux cs acc).flatten = acc.reverse ++ cs := by
  induction cs generalizing acc with
  | nil =>
      by_cases h : acc = [] <;> simp [splitLinesAux, h]
  | cons c cs ih =>
      by_cases h : c = '\n'
      · subst h; simp [splitLinesAux, ih]
      · simp [splitLinesAux, h, ih (c :: acc)]

theorem splitLinesAux_chunk_shape (cs : List Char) (acc : List Char) (hacc : '\n' ∉ acc) :
    ∀ l ∈ splitLinesAux cs acc, l ≠ [] ∧ ∀ c ∈ l.dropLast, c ≠ '\n' := by
  induction cs generalizing acc with
  | nil =>
      intro l hl
      simp only [splitLinesAux] at hl
      by_cases h : acc = []
      · rw [if_pos h] at hl; simp at hl
      · rw [if_neg h] at hl
        have hla : l = acc.reverse := by simpa using hl
        subst hla
        refine ⟨by simpa using h, ?_⟩
        intro x hx hxn
        have hx' : x ∈ acc := List.mem_reverse.mp ((List.dropLast_sublist acc.reverse).mem hx)
        exact hacc (hxn ▸ hx')
  | cons c cs ih =>
      intro l hl
      simp only [splitLinesAux] at hl
      by_cases h : c = '\n'
      · rw [if_pos h] at hl
        rcases List.mem_cons.mp hl with hl | hl
        · subst hl
          refine ⟨by simp, ?_⟩
          rw [List.dropLast_concat]
          intro x hx hxn
          exact hacc (List.mem_reverse.mp (hxn ▸ hx))
        · exact ih [] (by simp) l hl
      · rw [if_neg h] at hl
        refine ih (c :: acc) ?_ l hl
        intro hmem
        rcases List.mem_cons.mp hmem with h' | h'
        · exact h h'.symm
        · exact hacc h'

theorem splitLinesAux_full_lines (cs : List Char) (acc : List Char) :
    ∀ l ∈ (splitLinesAux cs acc).dropLast, l.getLast? = some '\n' := by
  induction cs generalizing acc with
  | nil =>
      intro l hl
      simp only [splitLinesAux] at hl
      by_cases h : acc = []
      · rw [if_pos h] at hl; simp at hl
      · rw [if_neg h] at hl; simp at hl
  | cons c cs ih =>
      intro l hl
      simp only [splitLinesAux] at hl
      by_cases h : c = '\n'
      · rw [if_pos h] at hl
        rcases hrec : splitLinesAux cs [] with _ | ⟨b, t⟩
        · rw [hrec] at hl; simp at hl
        · rw [hrec, List.dropLast_cons₂] at hl
          rcases List.mem_cons.mp hl with hl | hl
          · subst hl; exact List.getLast?_concat _
          · exact ih [] l (by rw [hrec]; exact hl)
      · rw [if_neg h] at hl
        exact ih (c :: acc) l hl

theorem drainGen_loaderStep (fp : String) (ls : List String) (n : Nat) (fuel : Nat)
    (h : ls.length ≤ fuel) :
    drainGen (CustomDocumentLoader.genStep fp) fuel ⟨ls, n⟩ =
      CustomDocumentLoader.lazyLoadAux fp n ls := by
  induction ls generalizing n fuel with
  | nil =>
      cases fuel with
      | zero => rfl
      | succ fuel => simp [drainGen, CustomDocumentLoader.genStep, CustomDocumentLoader.lazyLoadAux]
  | cons l rest ih =>
      cases fuel with
      | zero => exact absurd h (by simp)
      | succ fuel =>
          simp only [drainGen, CustomDocumentLoader.genStep, CustomDocumentLoader.lazyLoadAux]
          rw [ih (n + 1) fuel (Nat.le_of_succ_le_succ h)]

theorem drainGen_parseStep (src : Option String) (ls : List String) (n : Nat) (fuel : Nat)
    (h : ls.length ≤ fuel) :
    drainGen (MyParser.genStep src) fuel ⟨ls, n⟩ = MyParser.lazyParseAux src n ls := by
  induction ls generalizing n fuel with
  | nil =>
      cases fuel with
      | zero => rfl
      | succ fuel => simp [drainGen, MyParser.genStep, MyParser.lazyParseAux]
  | cons l rest ih =>
      cases fuel with
      | zero => exact absurd h (by simp)
      | succ fuel =>
          simp only [drainGen, MyParser.genStep, MyParser.lazyParseAux]
          rw [ih (n + 1) fuel (Nat.le_of_succ_le_succ h)]

theorem genericLazyLoad_flatten (parser : Blob → List Document) (blobs : List Blob) :
    GenericLoader.lazy_load parser blobs = (blobs.map parser).flatten := by
  induction blobs with
  | nil => rfl
  | cons b rest ih => simp [GenericLoader.lazy_load, ih]

theorem lazyLoadE_ok_append (parserE : Blob → List Document × Option LoadErr)
    (bs : List Blob) (tail : List (Except LoadErr Blob))
    (h : ∀ b ∈ bs, (parserE b).2 = none) :
    GenericLoader.lazyLoadE parserE (bs.map Except.ok ++ tail) =
      ((bs.map fun b => (parserE b).1).flatten ++ (GenericLoader.lazyLoadE parserE tail).1,
       (GenericLoader.lazyLoadE parserE tail).2) := by
  induction bs with
  | nil => simp [GenericLoader.lazyLoadE]
  | cons b rest ih =>
      have hb : (parserE b).2 = none := h b (List.mem_cons_self b rest)
      have hrest : ∀ x ∈ rest, (parserE x).2 = none := fun x hx => h x (List.mem_cons_of_mem b hx)
      rcases hpb : parserE b with ⟨ds, e2⟩
      rw [hpb] at hb
      subst hb
      simp only [List.map_cons, List.cons_append, GenericLoader.lazyLoadE, hpb,
        List.flatten_cons, List.append_eq, ih hrest, List.append_assoc]

theorem lazyLoadE_error (parserE : Blob → List Document × Option LoadErr)
    (e : LoadErr) (tail : List (Except LoadErr Blob)) :
    GenericLoader.lazyLoadE parserE (Except.error e :: tail) = ([], some e) := rfl

theorem bumpAt_getD_ne (w : List Nat) (i j : Nat) (h : j ≠ i) :
    (bumpAt w i).getD j 0 = w.getD j 0 := by
  simp [bumpAt, List.getD_eq_getElem?_getD, List.getElem?_set_ne (Ne.symm h)]

theorem getD_replicate_zero (n j : Nat) :
    (List.replicate n (0 : Nat)).getD j 0 = 0 := by
  simp only [List.getD_eq_getElem?_getD, List.getElem?_replicate]
  split <;> rfl

theorem pullFirst_fst_mem (items : List FsItem) (refs : List (Nat × String)) (w : List Nat)
    (d : Document) (i : Nat) (w' : List Nat)
    (h : pullFirst items refs w = (some (d, i), w')) :
    i ∈ refs.map Prod.fst := by
  induction refs generalizing w with
  | nil => simp [pullFirst] at h
  | cons r rest ih =>
      rcases r with ⟨a, p⟩
      rw [pullFirst] at h
      rcases hp : MyParser.lazy_parse ⟨(resolvePayload items a w).1, some p⟩ with
        _ | ⟨d0, ds⟩
      · rw [hp] at h
        exact List.mem_cons_of_mem a (ih (resolvePayload items a w).2 h)
      · rw [hp] at h
        rw [Prod.mk.injEq, Option.some.injEq, Prod.mk.injEq] at h
        obtain ⟨⟨hd, hi⟩, hw⟩ := h
        simp [← hi]

theorem pullFirst_preserves_later (items : List FsItem) (refs : List (Nat × String))
    (w : List Nat) (d : Document) (i : Nat) (w' : List Nat)
    (hs : List.Pairwise (· < ·) (refs.map Prod.fst))
    (h : pullFirst items refs w = (some (d, i), w')) :
    ∀ j, i < j → w'.getD j 0 = w.getD j 0 := by
  induction refs generalizing w with
  | nil => simp [pullFirst] at h
  | cons r rest ih =>
      rcases r with ⟨a, p⟩
      rw [pullFirst] at h
      rw [List.map_cons, List.pairwise_cons] at hs
      rcases hs with ⟨ha, hs'⟩
      rcases hp : MyParser.lazy_parse ⟨(resolvePayload items a w).1, some p⟩ with
        _ | ⟨d0, ds⟩
      · rw [hp] at h
        intro j hj
        have hai : a < i :=
          ha i (pullFirst_fst_mem items rest (resolvePayload items a w).2 d i w' h)
        rw [ih (resolvePayload items a w).2 hs' h j hj]
        exact bumpAt_getD_ne w a j (Nat.ne_of_lt (Nat.lt_trans hai hj)).symm
      · rw [hp] at h
        rw [Prod.mk.injEq, Option.some.injEq, Prod.mk.injEq] at h
        obtain ⟨⟨hd, hi⟩, hw⟩ := h
        subst hi
        intro j hj
        rw [← hw]
        exact bumpAt_getD_ne w a j (Nat.ne_of_lt hj).symm

theorem pyLines_map_data (s : String) :
    (pyLines s).map String.data = splitLinesAux s.data [] := by
  have hid : (String.data ∘ fun l : List Char => (⟨l⟩ : String)) = id := rfl
  rw [pyLines, List.map_map, hid, List.map_id]

theorem univNewlines_of_no_cr : ∀ cs : List Char, '\r' ∉ cs → univNewlines cs = cs
  | [], _ => rfl
  | [c], h => by
      have hc : ¬(c = '\r') := fun hc => h (by simp [hc])
      simp [univNewlines, hc]
  | c :: c2 :: cs, h => by
      have hc : ¬(c = '\r') := fun hc => h (by simp [hc])
      have h2 : '\r' ∉ c2 :: cs := fun hm => h (List.mem_cons_of_mem c hm)
      simp [univNewlines, hc, univNewlines_of_no_cr (c2 :: cs) h2]

theorem textRead_of_no_cr (c : String) (hr : '\r' ∉ c.data) : textRead c = c := by
  show (⟨univNewlines c.data⟩ : String) = c
  rw [univNewlines_of_no_cr c.data hr]

theorem range'_map_succ (s n : Nat) :
    (List.range' s n).map (· + 1) = List.range' (s + 1) n := by
  induction n generalizing s with
  | zero => rfl
  | succ n ih => simp [List.range'_succ, ih]

/-! The claims. -/

/-- C1: for every Blob built from an in-memory byte buffer, the reference
line-splitting parser yields exactly one record per line, a trailing
unterminated line included: the record contents are exactly the line
decomposition of the buffer (every line is nonempty and newline-free except
for its own terminator, every non-final line ends with its terminator, and
the lines concatenate back to the buffer), and the `line_number` attributes
are exactly 1, 2, ..., n, strictly increasing from base 1.  In particular on
the bytes "a\nb\nc" it yields three records with contents "a\n", "b\n", "c"
and position indices 1, 2, 3. -/
theorem c1_parse_yields_one_record_per_line (b : Blob) :
    (MyParser.lazy_parse b).map (·.page_content) = pyLines b.data
    ∧ ((pyLines b.data).map String.data).flatten = b.data.data
    ∧ (∀ l ∈ pyLines b.data, l.data ≠ [] ∧ ∀ c ∈ l.data.dropLast, c ≠ '\n')
    ∧ (∀ l ∈ (pyLines b.data).dropLast, l.data.getLast? = some '\n')
    ∧ (MyParser.lazy_parse b).map lineNumNat = List.range' 1 (pyLines b.data).length
    ∧ List.Pairwise (· < ·) ((MyParser.lazy_parse b).map lineNumNat)
    ∧ MyParser.lazy_parse ⟨"a\nb\nc", none⟩ =
        [⟨"a\n", [("line_number", MetaVal.num 1), ("source", MetaVal.none)]⟩,
         ⟨"b\n", [("line_number", MetaVal.num 2), ("source", MetaVal.none)]⟩,
         ⟨"c", [("line_number", MetaVal.num 3), ("source", MetaVal.none)]⟩] := by
  have h5 : (MyParser.lazy_parse b).map lineNumNat = List.range' 1 (pyLines b.data).length :=
    lazyParseAux_map_lineNum b.source 0 (pyLines b.data)
  refine ⟨lazyParseAux_map_content b.source 0 (pyLines b.data), ?_, ?_, ?_, h5, ?_, by decide⟩
  · rw [pyLines_map_data]
    simpa using splitLinesAux_flatten b.data.data []
  · intro l hl
    obtain ⟨lc, hlc, rfl⟩ := List.mem_map.mp hl
    simpa using splitLinesAux_chunk_shape b.data.data [] (by simp) lc hlc
  · intro l hl
    have hmem : l.data ∈ (splitLinesAux b.data.data []).dropLast := by
      rw [← pyLines_map_data, ← List.map_dropLast]
      exact List.mem_map_of_mem _ hl
    exact splitLinesAux_full_lines b.data.data [] l.data hmem
  · rw [h5]
    exact List.pairwise_lt_range' 1 _

/-- C1 witness: the theorem applied to the concrete in-memory blob "a\nb\nc". -/
theorem c1_parse_yields_one_record_per_line_witness :
    (MyParser.lazy_parse ⟨"a\nb\nc", none⟩).map (·.page_content) = pyLines "a\nb\nc" :=
  (c1_parse_yields_one_record_per_line ⟨"a\nb\nc", none⟩).1

/-- C2: every record produced from a Blob - by the reference line-splitting
parser or by the standalone loader - carries that Blob's origin under the
stable provenance key "source" in its attribute mapping. -/
theorem c2_records_carry_origin (b : Blob) (l : CustomDocumentLoader)
    (fs : String → Option String) :
    (∀ d ∈ MyParser.lazy_parse b,
        d.metadata.lookup "source" = some (MetaVal.ofOpt b.source))
    ∧ ∀ d ∈ (CustomDocumentLoader.lazy_load l fs).getD [],
        d.metadata.lookup "source" = some (MetaVal.str l.file_path) := by
  constructor
  · exact lazyParseAux_lookup_source b.source 0 (pyLines b.data)
  · intro d hd
    rcases hfs : fs l.file_path with _ | c
    · rw [CustomDocumentLoader.lazy_load, hfs] at hd
      simp at hd
    · rw [CustomDocumentLoader.lazy_load, hfs] at hd
      exact lazyLoadAux_lookup_source l.file_path 0 (pyLines (textRead c)) d (by simpa using hd)

/-- C2 witness: the first record parsed from the in-memory blob "a\nb"
carries the blob's (absent) origin under the key "source". -/
theorem c2_records_carry_origin_witness :
    (⟨"a\n", [("line_number", MetaVal.num 1), ("source", MetaVal.none)]⟩ :
        Document).metadata.lookup "source"
      = some (MetaVal.ofOpt (Blob.source ⟨"a\nb", none⟩)) :=
  (c2_records_carry_origin ⟨"a\nb", none⟩ ⟨"f"⟩ (fun _ => none)).1
    ⟨"a\n", [("line_number", MetaVal.num 1), ("source", MetaVal.none)]⟩ (by decide)

/-- C3: the GenericLoader's lazy_load yields exactly the concatenation, in
enumeration order, of the parser's record sequences for each blob, with no
reordering, deduplication, or batching; in particular blobs [b1, b2] parsed
to [r1a, r1b] and [r2a] yield exactly [r1a, r1b, r2a]. -/
theorem c3_generic_loader_concatenates (parser : Blob → List Document)
    (blobs : List Blob) (b1 b2 : Blob) (r1a r1b r2a : Document)
    (h1 : parser b1 = [r1a, r1b]) (h2 : parser b2 = [r2a]) :
    GenericLoader.lazy_load parser blobs = (blobs.map parser).flatten
    ∧ GenericLoader.lazy_load parser [b1, b2] = [r1a, r1b, r2a] := by
  refine ⟨genericLazyLoad_flatten parser blobs, ?_⟩
  simp [GenericLoader.lazy_load, h1, h2]

/-- C3 witness: the theorem applied to the reference parser over two concrete
in-memory blobs. -/
theorem c3_generic_loader_concatenates_witness :
    GenericLoader.lazy_load MyParser.lazy_parse [⟨"a\nb\n", none⟩, ⟨"c", none⟩]
      = [⟨"a\n", [("line_number", MetaVal.num 1), ("source", MetaVal.none)]⟩,
         ⟨"b\n", [("line_number", MetaVal.num 2), ("source", MetaVal.none)]⟩,
         ⟨"c", [("line_number", MetaVal.num 1), ("source", MetaVal.none)]⟩] :=
  (c3_generic_loader_concatenates MyParser.lazy_parse []
    ⟨"a\nb\n", none⟩ ⟨"c", none⟩
    ⟨"a\n", [("line_number", MetaVal.num 1), ("source", MetaVal.none)]⟩
    ⟨"b\n", [("line_number", MetaVal.num 2), ("source", MetaVal.none)]⟩
    ⟨"c", [("line_number", MetaVal.num 1), ("source", MetaVal.none)]⟩
    (by decide) (by decide)).2

/-- C4: the eager load() returns exactly the full materialization of the
lazy_load() sequence: draining the loader's freshly created generator yields
the same records, in the same order, with the same attributes. -/
theorem c4_load_materializes_lazy_load (l : CustomDocumentLoader) (c : String) :
    BaseLoader.load (CustomDocumentLoader.genStep l.file_path) (CustomDocumentLoader.lazyGen c)
      = (CustomDocumentLoader.lazy_load l (fun _ => some c)).getD [] :=
  drainGen_loaderStep l.file_path (pyLines (textRead c)) 0 (pyLines (textRead c)).length
    (Nat.le_refl _)

/-- C5: parse is deterministic and restartable per call: each invocation of
lazy_parse on the same immutable blob builds a fresh generator and draining
it re-derives the same full record sequence, so two invocations produce
element-for-element equal sequences (same contents, same attribute mappings,
same order). -/
theorem c5_parse_deterministic_restartable (b : Blob) :
    drainGen (MyParser.genStep b.source) (pyLines b.data).length (MyParser.parseGen b)
        = MyParser.lazy_parse b
    ∧ MyParser.lazy_parse b = MyParser.lazy_parse b :=
  ⟨drainGen_parseStep b.source (pyLines b.data) 0 (pyLines b.data).length (Nat.le_refl _), rfl⟩

/-- C6: the asynchronous lazy loader produces output identical to the
synchronous one on the same construction state and filesystem (same records,
same contents, same attribute values), and fails under exactly the same
condition, namely the configured file being absent. -/
theorem c6_async_matches_sync (l : CustomDocumentLoader) (fs : String → Option String) :
    CustomDocumentLoader.alazy_load l fs = CustomDocumentLoader.lazy_load l fs
    ∧ (CustomDocumentLoader.alazy_load l fs = none ↔ fs l.file_path = none) := by
  have h1 : CustomDocumentLoader.alazy_load l fs = CustomDocumentLoader.lazy_load l fs := by
    rw [CustomDocumentLoader.alazy_load, CustomDocumentLoader.lazy_load]
    rcases fs l.file_path with _ | c
    · rfl
    · simp [alazyLoadAux_eq_lazyLoadAux]
  refine ⟨h1, ?_⟩
  rw [h1, CustomDocumentLoader.lazy_load]
  exact Option.map_eq_none'

/-- C7: if the enumeration raises after k cleanly parsed blobs, lazy_load
yields every record of blobs 1..k unchanged and then surfaces the error at
that point; likewise when the (k+1)-th blob's parse itself fails, the records
already yielded are preserved and the failure surfaces, with no retry, no
suppression, and no skip-and-continue. -/
theorem c7_failure_preserves_prior_records
    (parserE : Blob → List Document × Option LoadErr) (bs : List Blob) (b0 : Blob)
    (e e0 : LoadErr) (rest : List (Except LoadErr Blob))
    (hok : ∀ b ∈ bs, (parserE b).2 = none) (hbad : (parserE b0).2 = some e0) :
    GenericLoader.lazyLoadE parserE (bs.map Except.ok ++ Except.error e :: rest)
        = ((bs.map fun b => (parserE b).1).flatten, some e)
    ∧ GenericLoader.lazyLoadE parserE (bs.map Except.ok ++ [Except.ok b0])
        = ((bs.map fun b => (parserE b).1).flatten ++ (parserE b0).1, some e0) := by
  constructor
  · rw [lazyLoadE_ok_append parserE bs _ hok, lazyLoadE_error]
    simp
  · rw [lazyLoadE_ok_append parserE bs _ hok]
    rcases hpb : parserE b0 with ⟨ds, e2⟩
    rw [hpb] at hbad
    have he2 : e2 = some e0 := hbad
    subst he2
    simp [GenericLoader.lazyLoadE, hpb]

/-- A test-double parser for the C7 witness: parses like the reference parser
but reports an enumeration-style failure on an empty payload. -/
def flakyParse (b : Blob) : List Document × Option LoadErr :=
  (MyParser.lazy_parse b,
   if b.data = "" then some (LoadErr.sourceEnumeration "empty payload") else none)

/-- C7 witness: one clean blob followed by an enumeration error, and one clean
blob followed by a blob whose parse fails. -/
theorem c7_failure_preserves_prior_records_witness :
    GenericLoader.lazyLoadE flakyParse
        [Except.ok ⟨"a\n", none⟩, Except.error (LoadErr.sourceEnumeration "down")]
      = ([⟨"a\n", [("line_number", MetaVal.num 1), ("source", MetaVal.none)]⟩],
         some (LoadErr.sourceEnumeration "down"))
    ∧ GenericLoader.lazyLoadE flakyParse [Except.ok ⟨"a\n", none⟩, Except.ok ⟨"", none⟩]
      = ([⟨"a\n", [("line_number", MetaVal.num 1), ("source", MetaVal.none)]⟩],
         some (LoadErr.sourceEnumeration "empty payload")) := by
  have h := c7_failure_preserves_prior_records flakyParse [⟨"a\n", none⟩] ⟨"", none⟩
    (LoadErr.sourceEnumeration "down") (LoadErr.sourceEnumeration "empty payload") []
    (by decide) (by decide)
  exact ⟨h.1.trans (by decide), h.2.trans (by decide)⟩

/-- C8 counterexample: with two discoverable items whose first payload is
empty, consuming only the first record of the composed pipeline yields a
record derived from item 2 and resolves the payload of item 2 (its resolution
counter is 1, not 0), so "consuming only the first record leaves the payloads
of items 2..N unresolved" fails as stated. -/
theorem c8_counterexample :
    (firstRecordWorld [⟨"f1", ""⟩, ⟨"f2", "x"⟩]).1
        = some (⟨"x", [("line_number", MetaVal.num 1), ("source", MetaVal.str "f2")]⟩, 1)
    ∧ (firstRecordWorld [⟨"f1", ""⟩, ⟨"f2", "x"⟩]).2.getD 1 0 = 1 := by
  decide

/-- C8 (amended): enumeration itself reads no payloads, and consuming only
the first record of the composed pipeline leaves the payloads of all items
after the item that produced that record unresolved (when the first item
yields a record this is exactly items 2..N). -/
theorem c8_corrected_lazy_resolution (items : List FsItem) (d : Document) (i : Nat)
    (w' : List Nat) (h : firstRecordWorld items = (some (d, i), w')) :
    (FileSystemBlobLoader.yield_blobs items (List.replicate items.length 0)).2
        = List.replicate items.length 0
    ∧ ∀ j, i < j → w'.getD j 0 = 0 := by
  refine ⟨rfl, ?_⟩
  have hrefs : ((List.range items.length).zip (items.map (·.path))).map Prod.fst
      = List.range items.length := by
    apply List.map_fst_zip
    simp
  have hpair : List.Pairwise (· < ·)
      (((List.range items.length).zip (items.map (·.path))).map Prod.fst) := by
    rw [hrefs]
    exact List.pairwise_lt_range _
  have h' : pullFirst items ((List.range items.length).zip (items.map (·.path)))
      (List.replicate items.length 0) = (some (d, i), w') := h
  intro j hj
  rw [pullFirst_preserves_later items _ _ d i w' hpair h' j hj]
  exact getD_replicate_zero _ _

/-- C8 witness: two items with a nonempty first payload; pulling the first
record resolves only item 1. -/
theorem c8_corrected_lazy_resolution_witness :
    ((FileSystemBlobLoader.yield_blobs [⟨"f1", "a\n"⟩, ⟨"f2", "b"⟩]
        (List.replicate 2 0)).2 = List.replicate 2 0)
    ∧ ∀ j, 0 < j → ([1, 0] : List Nat).getD j 0 = 0 :=
  c8_corrected_lazy_resolution [⟨"f1", "a\n"⟩, ⟨"f2", "b"⟩]
    ⟨"a\n", [("line_number", MetaVal.num 1), ("source", MetaVal.str "f1")]⟩ 0 [1, 0]
    (by decide)

/-- C9 counterexample: the loader opens the file in text mode, so on raw
content "a\rb" it yields the two records "a\n" and "b" (the lone carriage
return is translated to a newline by universal-newline handling), while the
reference parser reads the same bytes in binary mode and yields the single
record "a\rb": the contents are not identical, refuting the claim as stated. -/
theorem c9_counterexample :
    ((CustomDocumentLoader.lazy_load ⟨"f"⟩ (fun _ => some "a\rb")).getD []).map (·.page_content)
        = ["a\n", "b"]
    ∧ (MyParser.lazy_parse (Blob.from_path "f" "a\rb")).map (·.page_content) = ["a\rb"]
    ∧ ((CustomDocumentLoader.lazy_load ⟨"f"⟩ (fun _ => some "a\rb")).getD []).map
        (·.page_content)
        ≠ (MyParser.lazy_parse (Blob.from_path "f" "a\rb")).map (·.page_content) := by
  decide

/-- C9 (amended): on file content free of carriage returns - where text-mode
universal-newline translation is the identity - the standalone loader and the
reference parser yield record sequences with identical contents in identical
order, while their position indices differ by exactly one on every record:
the loader numbers lines 0, 1, ..., n-1 and the parser numbers them
1, 2, ..., n. -/
theorem c9_zero_based_vs_one_based (fp c : String) (hr : '\r' ∉ c.data) :
    ((CustomDocumentLoader.lazy_load ⟨fp⟩ (fun _ => some c)).getD []).map (·.page_content)
        = (MyParser.lazy_parse (Blob.from_path fp c)).map (·.page_content)
    ∧ ((CustomDocumentLoader.lazy_load ⟨fp⟩ (fun _ => some c)).getD []).map lineNumNat
        = List.range' 0 (pyLines c).length
    ∧ (MyParser.lazy_parse (Blob.from_path fp c)).map lineNumNat
        = List.range' 1 (pyLines c).length
    ∧ (MyParser.lazy_parse (Blob.from_path fp c)).map lineNumNat
        = (((CustomDocumentLoader.lazy_load ⟨fp⟩ (fun _ => some c)).getD []).map
            lineNumNat).map (· + 1) := by
  have ht : textRead c = c := textRead_of_no_cr c hr
  have hload : (CustomDocumentLoader.lazy_load ⟨fp⟩ (fun _ => some c)).getD []
      = CustomDocumentLoader.lazyLoadAux fp 0 (pyLines c) := by
    rw [CustomDocumentLoader.lazy_load]
    simp [ht]
  have h2 : ((CustomDocumentLoader.lazy_load ⟨fp⟩ (fun _ => some c)).getD []).map lineNumNat
      = List.range' 0 (pyLines c).length := by
    rw [hload]
    exact lazyLoadAux_map_lineNum fp 0 (pyLines c)
  have h3 : (MyParser.lazy_parse (Blob.from_path fp c)).map lineNumNat
      = List.range' 1 (pyLines c).length := lazyParseAux_map_lineNum (some fp) 0 (pyLines c)
  refine ⟨?_, h2, h3, ?_⟩
  · rw [hload]
    exact (lazyLoadAux_map_content fp 0 (pyLines c)).trans
      (lazyParseAux_map_content (some fp) 0 (pyLines c)).symm
  · rw [h2, h3, range'_map_succ]

/-- C9 witness: the amended theorem applied to carriage-return-free content. -/
theorem c9_zero_based_vs_one_based_witness :
    ((CustomDocumentLoader.lazy_load ⟨"f"⟩ (fun _ => some "x\ny")).getD []).map (·.page_content)
        = (MyParser.lazy_parse (Blob.from_path "f" "x\ny")).map (·.page_content) :=
  (c9_zero_based_vs_one_based "f" "x\ny" (by decide)).1

/-- C10: parsing a Blob constructed directly from in-memory bytes with no
origin still produces records whose attribute mapping contains the provenance
key "source" with value None rather than omitting the key, and the key is
present in every record's attributes regardless of whether the blob has an
origin. -/
theorem c10_source_key_always_present (data : String) (b : Blob) :
    (∀ d ∈ MyParser.lazy_parse ⟨data, none⟩,
        d.metadata.lookup "source" = some MetaVal.none)
    ∧ (∀ d ∈ MyParser.lazy_parse b, (d.metadata.lookup "source").isSome = true)
    ∧ MyParser.lazy_parse ⟨"some data from memory\nmeow", none⟩ =
        [⟨"some data from memory\n",
          [("line_number", MetaVal.num 1), ("source", MetaVal.none)]⟩,
         ⟨"meow", [("line_number", MetaVal.num 2), ("source", MetaVal.none)]⟩] := by
  refine ⟨?_, ?_, by decide⟩
  · intro d hd
    exact lazyParseAux_lookup_source none 0 (pyLines data) d hd
  · intro d hd
    rw [lazyParseAux_lookup_source b.source 0 (pyLines b.data) d hd]
    rfl

/-- C10 witness: the second record parsed from the in-memory blob of the
notebook's example carries the key "source" with value None. -/
theorem c10_source_key_always_present_witness :
    (⟨"meow", [("line_number", MetaVal.num 2), ("source", MetaVal.none)]⟩ :
        Document).metadata.lookup "source" = some MetaVal.none :=
  (c10_source_key_always_present "some data from memory\nmeow" ⟨"x", none⟩).1
    ⟨"meow", [("line_number", MetaVal.num 2), ("source", MetaVal.none)]⟩ (by decide)

end LangchainDocLoader
